import Mathlib

/-!
Shallow embedding of the FM demodulator in radiocore/analog/fm.py.

The demodulator transforms a fixed-size complex sample buffer into a
real-valued frequency buffer (fast difference-product path or exact
phase-unwrapping path), hands it to a Decimator collaborator, reshapes
the result to an (output_size, 1) frame and optionally transfers it to
host memory.  Complex samples are modelled as elements of the field of
Lean complex numbers and the NumPy array primitives used by the code
(conj, real, imag, angle, unwrap, diff, pad, expand_dims) are given
explicit list-level semantics below.
-/

namespace RadioCore

/-- Semantics of np.diff on a one-dimensional array: consecutive
differences, length one less than the input (empty input gives empty
output). -/
def diff (l : List ℝ) : List ℝ :=
  List.zipWith (fun a b => b - a) l l.tail

/-- Semantics of np.pad with pad width (1, 0): one zero prepended. -/
def pad1 (l : List ℝ) : List ℝ := 0 :: l

/-- Floating modulus np.mod(x, 2*pi): the representative of x modulo 2*pi
lying in the interval from 0 (inclusive) to 2*pi (exclusive). -/
noncomputable def mod2pi (x : ℝ) : ℝ :=
  x - (2 * Real.pi) * ⌊x / (2 * Real.pi)⌋

open scoped Classical in
/-- Per-sample phase correction of np.unwrap (default discont = pi,
period = 2*pi): the correction added to the running phase for one
first-difference value dd. -/
noncomputable def phCorrect (dd : ℝ) : ℝ :=
  let ddmod0 := mod2pi (dd + Real.pi) - Real.pi
  let ddmod := if ddmod0 = -Real.pi ∧ 0 < dd then Real.pi else ddmod0
  if |dd| < Real.pi then 0 else ddmod - dd

/-- Running sums of a list (np.cumsum): element i is the sum of the
first i+1 input elements. -/
def cumsum (l : List ℝ) : List ℝ :=
  (l.scanl (· + ·) 0).tail

/-- Semantics of np.unwrap with default arguments: the first element is
kept and every later element receives the accumulated phase correction
of the first differences before it. -/
noncomputable def unwrap (p : List ℝ) : List ℝ :=
  match p with
  | [] => []
  | p0 :: rest =>
      p0 :: List.zipWith (· + ·) rest (cumsum ((diff (p0 :: rest)).map phCorrect))

/-- Slow-path pre-decimation buffer of FM.run (fast flag cleared):
angle, unwrap, diff, pad with one leading zero, divide by pi. -/
noncomputable def slowBuffer (x : List ℂ) : List ℝ :=
  (pad1 (diff (unwrap (x.map Complex.arg)))).map (fun v => v / Real.pi)

/-- Difference products written by the fast path slice assignment:
element i is (x[i] - x[i+2]) * conj(x[i+1]), for i up to N-3. -/
def dList : List ℂ → List ℂ
  | a :: b :: c :: rest => (a - c) * (starRingEnd ℂ) b :: dList (b :: c :: rest)
  | _ => []

/-- Contents of the working buffer after the in-place slice assignment
of the fast path: the first N-2 positions hold the difference products,
the last two positions keep the original samples. -/
def fastWritten (x : List ℂ) : List ℂ :=
  dList x ++ x.drop (x.length - 2)

/-- Fast-path pre-decimation buffer of FM.run (fast flag set): the
elementwise map z to -(Re z - Im z) / 2 over the written buffer. -/
noncomputable def fastBuffer (x : List ℂ) : List ℝ :=
  (fastWritten x).map (fun z => (-(z.re - z.im)) / 2)

/-- Python int() conversion on a numeric value: truncation toward
zero. -/
def intTrunc (q : ℚ) : ℤ :=
  if 0 ≤ q then ⌊q⌋ else ⌈q⌉

/-- State held by an FM instance: the cuda backend choice, the two
converted sizes, and the mutable fast flag (initialized to true). -/
structure FM where
  cuda : Bool
  inputSize : ℤ
  outputSize : ℤ
  fast : Bool

/-- Possible construction failures.  FM.__init__ performs no
validation, so this type is never produced. -/
inductive InitError : Type

/-- Embedding of FM.__init__: convert both sizes with int(), store the
cuda flag, set fast to true.  The deemphasis argument is accepted and
unused, and no error is ever raised by this core. -/
def FM.init (inputSize outputSize : ℚ) (deemphasis : ℚ) (cuda : Bool) :
    Except InitError FM :=
  .ok { cuda := cuda
        inputSize := intTrunc inputSize
        outputSize := intTrunc outputSize
        fast := true }

/-- Embedding of the FM.channels property. -/
def FM.channels (_ : FM) : ℕ := 1

/-- Failure raised by FM.run: the ValueError on an input size
mismatch. -/
inductive RunError : Type
  | invalidInputSize

/-- Pre-decimation buffer selected by the fast flag. -/
noncomputable def preBuffer (fm : FM) (x : List ℂ) : List ℝ :=
  if fm.fast then fastBuffer x else slowBuffer x

/-- Observable outcome of one successful FM.run call: the returned
frame (a list of rows, one sample per row after expand_dims axis 1),
whether asnumpy transferred it to host memory, and the contents of the
caller-visible input buffer after the call (the fast path writes into
it through the asarray alias). -/
structure RunResult where
  frame : List (List ℝ)
  toHost : Bool
  buffer : List ℂ

/-- Embedding of FM.run.  The decimator collaborator is an explicit
function argument dec.  The length check runs before any numerical
work; the fast flag selects the pre-decimation buffer; the decimated
buffer is reshaped to one sample per row; asnumpy fires exactly when
cuda and numpy_output are both set. -/
noncomputable def FM.run (fm : FM) (dec : List ℝ → List ℝ)
    (x : List ℂ) (numpyOutput : Bool) : Except RunError RunResult :=
  if (x.length : ℤ) ≠ fm.inputSize then
    .error .invalidInputSize
  else
    .ok { frame := (dec (preBuffer fm x)).map (fun v => [v])
          toHost := fm.cuda && numpyOutput
          buffer := if fm.fast then fastWritten x else x }

/-! Helper lemmas about the embedded array primitives. -/

theorem dList_length : ∀ x : List ℂ, (dList x).length = x.length - 2
  | [] => rfl
  | [_] => rfl
  | [_, _] => rfl
  | _ :: b :: c :: rest => by
      have ih := dList_length (b :: c :: rest)
      simp only [dList, List.length_cons] at ih ⊢
      omega

theorem dList_getElem? : ∀ (x : List ℂ) (i : ℕ), i + 2 < x.length →
    (dList x)[i]? =
      some ((x.getD i 0 - x.getD (i + 2) 0) * (starRingEnd ℂ) (x.getD (i + 1) 0))
  | a :: b :: c :: rest, 0, _ => by
      simp [dList, List.getD]
  | a :: b :: c :: rest, i + 1, h => by
      have ih := dList_getElem? (b :: c :: rest) i (by
        simp only [List.length_cons] at h ⊢; omega)
      simpa [dList, List.getD] using ih
  | [], i, h => by simp at h
  | [_], i, h => by simp at h
  | [_, _], i, h => by simp at h

theorem fastWritten_length (x : List ℂ) : (fastWritten x).length = x.length := by
  simp only [fastWritten, List.length_append, dList_length, List.length_drop]
  omega

theorem fastWritten_prefix (x : List ℂ) (i : ℕ) (h : i + 2 < x.length) :
    (fastWritten x)[i]? =
      some ((x.getD i 0 - x.getD (i + 2) 0) * (starRingEnd ℂ) (x.getD (i + 1) 0)) := by
  rw [fastWritten, List.getElem?_append_left (by rw [dList_length]; omega)]
  exact dList_getElem? x i h

theorem fastWritten_suffix (x : List ℂ) (i : ℕ)
    (h1 : x.length - 2 ≤ i) :
    (fastWritten x)[i]? = x[i]? := by
  rw [fastWritten, List.getElem?_append_right (by rw [dList_length]; omega),
    List.getElem?_drop, dList_length]
  congr 1
  omega

theorem diff_length (l : List ℝ) : (diff l).length = l.length - 1 := by
  simp only [diff, List.length_zipWith, List.length_tail]
  omega

theorem cumsum_length (l : List ℝ) : (cumsum l).length = l.length := by
  simp [cumsum, List.length_scanl]

theorem unwrap_length (p : List ℝ) : (unwrap p).length = p.length := by
  cases p with
  | nil => rfl
  | cons p0 rest =>
      simp only [unwrap, List.length_cons, List.length_zipWith, cumsum_length,
        List.length_map, diff_length]
      omega

/-! Claim theorems. -/

/-- C10: the channels accessor always returns the integer constant 1,
for every instance regardless of its construction parameters, and has
no side effects (it is a pure function of the instance). -/
theorem fm_channels_one (fm : FM) : FM.channels fm = 1 := rfl

/-- C9: construction raises no error for any size arguments, even
degenerate ones; input_size and output_size are converted to integers
by truncation toward zero at construction and stored in the returned
immutable instance.  The truncation bounds make the conversion precise:
the stored integer is within 1 of the argument and never exceeds it in
absolute value. -/
theorem fm_init_no_error (i o d : ℚ) (c : Bool) :
    FM.init i o d c =
      Except.ok { cuda := c, inputSize := intTrunc i, outputSize := intTrunc o,
                  fast := true } ∧
    |i - (intTrunc i : ℚ)| < 1 ∧ |(intTrunc i : ℚ)| ≤ |i| := by
  refine ⟨rfl, ?_, ?_⟩
  · rw [intTrunc]
    split
    · rw [abs_lt]
      constructor
      · have := Int.floor_le i
        linarith
      · have := Int.lt_floor_add_one i
        linarith
    · rw [abs_lt]
      constructor
      · have := Int.ceil_lt_add_one i
        linarith
      · have := Int.le_ceil i
        linarith
  · rw [intTrunc]
    split
    · rename_i h
      rw [abs_of_nonneg (by exact_mod_cast Int.floor_nonneg.mpr h),
        abs_of_nonneg h]
      exact Int.floor_le i
    · rename_i h
      push_neg at h
      have hc0 : ⌈i⌉ ≤ 0 := Int.ceil_le.mpr (by exact_mod_cast h.le)
      rw [abs_of_nonpos (by exact_mod_cast hc0), abs_of_nonpos h.le]
      have := Int.le_ceil i
      linarith

/-- C7: FM.run is deterministic: two calls on the same instance with
the same decimator collaborator, identical input buffers and identical
numpy_output argument return identical results. -/
theorem fm_run_deterministic (fm : FM) (dec : List ℝ → List ℝ)
    (x1 x2 : List ℂ) (c1 c2 : Bool) (hx : x1 = x2) (hc : c1 = c2) :
    FM.run fm dec x1 c1 = FM.run fm dec x2 c2 := by
  rw [hx, hc]

/-- Witness for C7 at a concrete instance and buffer. -/
theorem fm_run_deterministic_witness :
    ([Complex.I] : List ℂ) = [Complex.I] ∧ (true = true) ∧
    FM.run { cuda := false, inputSize := 1, outputSize := 1, fast := true }
        (fun l => l) [Complex.I] true =
      FM.run { cuda := false, inputSize := 1, outputSize := 1, fast := true }
        (fun l => l) [Complex.I] true :=
  ⟨rfl, rfl, fm_run_deterministic _ (fun l => l) [Complex.I] [Complex.I]
    true true rfl rfl⟩

/-- C3: FM.run fails with the invalid-input-size error exactly when the
input length differs from the configured input_size; the check happens
before any numerical work (an error returns nothing else), and because
the instance carries no mutable state a subsequent correctly sized call
on the same instance succeeds. -/
theorem fm_run_size_check (fm : FM) (dec : List ℝ → List ℝ)
    (x y : List ℂ) (c c2 : Bool) :
    (FM.run fm dec x c = Except.error RunError.invalidInputSize ↔
      (x.length : ℤ) ≠ fm.inputSize) ∧
    ((y.length : ℤ) = fm.inputSize →
      ∃ r : RunResult, FM.run fm dec y c2 = Except.ok r) := by
  constructor
  · unfold FM.run
    split <;> simp_all
  · intro h
    unfold FM.run
    rw [if_neg (by simp [h])]
    exact ⟨_, rfl⟩

/-- Witness for C3: a zero-length buffer is rejected while a matching
three-sample buffer succeeds on the same instance. -/
theorem fm_run_size_check_witness :
    (FM.run { cuda := false, inputSize := 3, outputSize := 2, fast := true }
        (fun l => l) ([] : List ℂ) true = Except.error RunError.invalidInputSize ↔
      ((([] : List ℂ).length : ℤ) ≠
        ({ cuda := false, inputSize := 3, outputSize := 2, fast := true } : FM).inputSize)) ∧
    (((([1, 1, 1] : List ℂ).length : ℤ) =
        ({ cuda := false, inputSize := 3, outputSize := 2, fast := true } : FM).inputSize) →
      ∃ r : RunResult,
        FM.run { cuda := false, inputSize := 3, outputSize := 2, fast := true }
          (fun l => l) ([1, 1, 1] : List ℂ) true = Except.ok r) :=
  fm_run_size_check _ (fun l => l) [] [1, 1, 1] true true

/-- C4: for a valid input of length input_size, when the decimator
returns buffers of length output_size, FM.run succeeds and returns a
frame of shape (output_size, 1): output_size rows of one sample each,
whatever the value of the fast flag. -/
theorem fm_run_shape (fm : FM) (dec : List ℝ → List ℝ) (x : List ℂ) (c : Bool)
    (hlen : (x.length : ℤ) = fm.inputSize)
    (hdec : ∀ l : List ℝ, (dec l).length = fm.outputSize.toNat) :
    ∃ r : RunResult, FM.run fm dec x c = Except.ok r ∧
      r.frame.length = fm.outputSize.toNat ∧
      ∀ row ∈ r.frame, row.length = 1 := by
  refine ⟨{ frame := (dec (preBuffer fm x)).map (fun v => [v]),
            toHost := fm.cuda && c,
            buffer := if fm.fast then fastWritten x else x }, ?_, ?_, ?_⟩
  · unfold FM.run
    rw [if_neg (by simp [hlen])]
  · simp [hdec]
  · intro row hrow
    simp only [List.mem_map] at hrow
    obtain ⟨v, _, rfl⟩ := hrow
    rfl

/-- Witness for C4 with a constant-length decimator on both branches
colapsed into one concrete instance. -/
theorem fm_run_shape_witness :
    ((([1, 1, 1] : List ℂ).length : ℤ) =
      ({ cuda := false, inputSize := 3, outputSize := 2, fast := true } : FM).inputSize) ∧
    (∀ l : List ℝ, ((fun _ => [(0 : ℝ), 0]) l).length =
      ({ cuda := false, inputSize := 3, outputSize := 2, fast := true } : FM).outputSize.toNat) ∧
    ∃ r : RunResult,
      FM.run { cuda := false, inputSize := 3, outputSize := 2, fast := true }
        (fun _ => [(0 : ℝ), 0]) ([1, 1, 1] : List ℂ) true = Except.ok r ∧
      r.frame.length =
        ({ cuda := false, inputSize := 3, outputSize := 2, fast := true } : FM).outputSize.toNat ∧
      ∀ row ∈ r.frame, row.length = 1 :=
  ⟨by simp, fun _ => rfl,
    fm_run_shape _ (fun _ => [(0 : ℝ), 0]) [1, 1, 1] true (by simp) (fun _ => rfl)⟩

/-- C8: the result is transferred to host memory exactly when the
instance was built with cuda enabled and numpy_output is true; with
cuda disabled the numpy_output argument has no effect on the returned
value at all. -/
theorem fm_run_host_transfer (fm : FM) (dec : List ℝ → List ℝ) (x : List ℂ) :
    (∀ (c : Bool) (r : RunResult),
        FM.run fm dec x c = Except.ok r → r.toHost = (fm.cuda && c)) ∧
    (fm.cuda = false → FM.run fm dec x true = FM.run fm dec x false) := by
  constructor
  · intro c r h
    unfold FM.run at h
    split at h
    · exact absurd h (by simp)
    · injection h with h
      rw [← h]
  · intro hc
    unfold FM.run
    simp [hc]

/-- Witness for C8 on a cuda-disabled instance. -/
theorem fm_run_host_transfer_witness :
    (∀ (c : Bool) (r : RunResult),
        FM.run { cuda := false, inputSize := 1, outputSize := 1, fast := true }
          (fun l => l) [Complex.I] c = Except.ok r →
        r.toHost =
          (({ cuda := false, inputSize := 1, outputSize := 1, fast := true } : FM).cuda && c)) ∧
    (({ cuda := false, inputSize := 1, outputSize := 1, fast := true } : FM).cuda = false →
      FM.run { cuda := false, inputSize := 1, outputSize := 1, fast := true }
          (fun l => l) [Complex.I] true =
        FM.run { cuda := false, inputSize := 1, outputSize := 1, fast := true }
          (fun l => l) [Complex.I] false) :=
  fm_run_host_transfer _ (fun l => l) [Complex.I]

/-- C1: with the fast flag set, every pre-decimation value at index i
from 0 to N-3 equals -(Re d - Im d) / 2 where
d = (x[i] - x[i+2]) * conj(x[i+1]) is the difference product of the
original samples. -/
theorem fm_fast_prefix_formula (x : List ℂ) (i : ℕ)
    (h3 : 3 ≤ x.length) (hi : i ≤ x.length - 3) :
    (fastBuffer x)[i]? =
      some ((-(((x.getD i 0 - x.getD (i + 2) 0) *
                  (starRingEnd ℂ) (x.getD (i + 1) 0)).re -
               ((x.getD i 0 - x.getD (i + 2) 0) *
                  (starRingEnd ℂ) (x.getD (i + 1) 0)).im)) / 2) := by
  have h2 : i + 2 < x.length := by omega
  rw [fastBuffer, List.getElem?_map, fastWritten_prefix x i h2]
  rfl

/-- Witness for C1 at the buffer [i, 1, 0], whose single difference
product is i with demodulated value 1/2. -/
theorem fm_fast_prefix_formula_witness :
    3 ≤ ([Complex.I, 1, 0] : List ℂ).length ∧
    (0 : ℕ) ≤ ([Complex.I, 1, 0] : List ℂ).length - 3 ∧
    (fastBuffer [Complex.I, 1, 0])[0]? = some (1 / 2) := by
  refine ⟨by simp, by simp, ?_⟩
  have h := fm_fast_prefix_formula [Complex.I, 1, 0] 0 (by simp) (by simp)
  simp only [List.getD_cons_zero, List.getD_cons_succ] at h
  rw [h]
  norm_num [sub_zero, map_one, mul_one, Complex.I_re, Complex.I_im]

/-- C6: with the fast flag set, the last two pre-decimation values are
well defined: at indices N-2 and N-1 the buffer holds
-(Re(x[i]) - Im(x[i])) / 2 computed from the original input samples,
which the slice assignment never touched. -/
theorem fm_fast_last_two (x : List ℂ) (h2 : 2 ≤ x.length) :
    (fastBuffer x)[x.length - 2]? =
      some ((-((x.getD (x.length - 2) 0).re - (x.getD (x.length - 2) 0).im)) / 2) ∧
    (fastBuffer x)[x.length - 1]? =
      some ((-((x.getD (x.length - 1) 0).re - (x.getD (x.length - 1) 0).im)) / 2) := by
  constructor
  · have hlt : x.length - 2 < x.length := by omega
    rw [fastBuffer, List.getElem?_map, fastWritten_suffix x _ (by omega)]
    simp [List.getD, List.getElem?_eq_getElem hlt]
  · have hlt : x.length - 1 < x.length := by omega
    rw [fastBuffer, List.getElem?_map, fastWritten_suffix x _ (by omega)]
    simp [List.getD, List.getElem?_eq_getElem hlt]

/-- Witness for C6 at the buffer [i, 1, 0]: positions 1 and 2 keep the
original samples 1 and 0, demodulated to -1/2 and 0. -/
theorem fm_fast_last_two_witness :
    2 ≤ ([Complex.I, 1, 0] : List ℂ).length ∧
    ((fastBuffer [Complex.I, 1, 0])[([Complex.I, 1, 0] : List ℂ).length - 2]? =
      some ((-((([Complex.I, 1, 0] : List ℂ).getD
                  (([Complex.I, 1, 0] : List ℂ).length - 2) 0).re -
               (([Complex.I, 1, 0] : List ℂ).getD
                  (([Complex.I, 1, 0] : List ℂ).length - 2) 0).im)) / 2) ∧
     (fastBuffer [Complex.I, 1, 0])[([Complex.I, 1, 0] : List ℂ).length - 1]? =
      some ((-((([Complex.I, 1, 0] : List ℂ).getD
                  (([Complex.I, 1, 0] : List ℂ).length - 1) 0).re -
               (([Complex.I, 1, 0] : List ℂ).getD
                  (([Complex.I, 1, 0] : List ℂ).length - 1) 0).im)) / 2)) :=
  ⟨by simp, fm_fast_last_two [Complex.I, 1, 0] (by simp)⟩

/-- C5: with the fast flag set and aliasing construction (asarray
returning the caller's buffer), a successful run leaves the caller's
buffer holding the difference products in its first N-2 positions; and
the write is visible, since some buffer is genuinely changed by it. -/
theorem fm_fast_inplace_write (fm : FM) (dec : List ℝ → List ℝ) (x : List ℂ)
    (c : Bool) (hfast : fm.fast = true) (hlen : (x.length : ℤ) = fm.inputSize) :
    (∃ r : RunResult, FM.run fm dec x c = Except.ok r ∧
      r.buffer = fastWritten x ∧
      ∀ i : ℕ, i + 2 < x.length →
        r.buffer[i]? = some ((x.getD i 0 - x.getD (i + 2) 0) *
          (starRingEnd ℂ) (x.getD (i + 1) 0))) ∧
    fastWritten [1, 1, 1] ≠ ([1, 1, 1] : List ℂ) := by
  constructor
  · refine ⟨{ frame := (dec (preBuffer fm x)).map (fun v => [v]),
              toHost := fm.cuda && c,
              buffer := fastWritten x }, ?_, rfl, ?_⟩
    · unfold FM.run
      rw [if_neg (by simp [hlen])]
      simp [hfast]
    · intro i hi
      exact fastWritten_prefix x i hi
  · intro h
    have h0 : (fastWritten [1, 1, 1] : List ℂ)[0]? = some 0 := by
      norm_num [fastWritten, dList]
    rw [h] at h0
    norm_num at h0

/-- Witness for C5 at the all-ones buffer of length three. -/
theorem fm_fast_inplace_write_witness :
    (({ cuda := false, inputSize := 3, outputSize := 2, fast := true } : FM).fast = true) ∧
    ((([1, 1, 1] : List ℂ).length : ℤ) =
      ({ cuda := false, inputSize := 3, outputSize := 2, fast := true } : FM).inputSize) ∧
    ((∃ r : RunResult,
        FM.run { cuda := false, inputSize := 3, outputSize := 2, fast := true }
          (fun l => l) ([1, 1, 1] : List ℂ) true = Except.ok r ∧
        r.buffer = fastWritten [1, 1, 1] ∧
        ∀ i : ℕ, i + 2 < ([1, 1, 1] : List ℂ).length →
          r.buffer[i]? = some ((([1, 1, 1] : List ℂ).getD i 0 -
              ([1, 1, 1] : List ℂ).getD (i + 2) 0) *
            (starRingEnd ℂ) (([1, 1, 1] : List ℂ).getD (i + 1) 0))) ∧
      fastWritten [1, 1, 1] ≠ ([1, 1, 1] : List ℂ)) :=
  ⟨rfl, by simp,
    fm_fast_inplace_write _ (fun l => l) [1, 1, 1] true rfl (by simp)⟩

/-- C2: with the fast flag cleared, the pre-decimation buffer is the
phase pipeline applied to the samples: phase angles, unwrapped,
first-differenced down to length N-1, left-padded with one leading
zero back to length N (so element 0 is 0), and divided by pi. -/
theorem fm_slow_pipeline (x : List ℂ) (hx : x ≠ []) :
    slowBuffer x =
      (0 :: diff (unwrap (x.map Complex.arg))).map (fun v => v / Real.pi) ∧
    (diff (unwrap (x.map Complex.arg))).length = x.length - 1 ∧
    (slowBuffer x).length = x.length ∧
    (slowBuffer x)[0]? = some 0 := by
  have hpos : 0 < x.length := List.length_pos.mpr hx
  refine ⟨rfl, ?_, ?_, ?_⟩
  · rw [diff_length, unwrap_length, List.length_map]
  · rw [slowBuffer]
    simp only [pad1, List.length_map, List.length_cons, diff_length,
      unwrap_length]
    omega
  · simp [slowBuffer, pad1]

/-- Witness for C2 at the one-sample buffer [1]. -/
theorem fm_slow_pipeline_witness :
    (([1] : List ℂ) ≠ []) ∧
    (slowBuffer [1] =
      (0 :: diff (unwrap (([1] : List ℂ).map Complex.arg))).map
        (fun v => v / Real.pi) ∧
     (diff (unwrap (([1] : List ℂ).map Complex.arg))).length =
       ([1] : List ℂ).length - 1 ∧
     (slowBuffer [1]).length = ([1] : List ℂ).length ∧
     (slowBuffer [1])[0]? = some 0) :=
  ⟨by simp, fm_slow_pipeline [1] (by simp)⟩

end RadioCore
